import Mathlib

/-!
Shallow embedding of the ranking pipeline in src/backend/main.py of the
DeepMinds repository: the user_search endpoint (candidate construction,
budget / preference / payment filters with fallback, MMR diversification
via apply_mmr, reranking, sorting, truncation, and result assembly), and
theorems settling the frozen claims about it.

Floats of the source are modelled as rationals, Python dict records as
structures, a missing dict key (final_score before reranking) as an
Option field, and a KeyError as an Except error.
-/

namespace DeepMinds

/-- A candidate dict as built in user_search (main.py lines 425-435,
460-470): keys product_id, semantic_score, rate, review_count, price,
category, brand, material, payment_methods.  The final_score key is
absent (none) until the reranking step assigns it. -/
structure Cand where
  product_id : String
  semantic_score : ℚ
  rate : ℚ
  review_count : ℕ
  price : ℚ
  category : String
  brand : String
  material : String
  payment_methods : List String
  final_score : Option ℚ
deriving DecidableEq, Repr

/-- Helper to build a candidate record with the fields the proofs vary. -/
def mkCand (pid : String) (s : ℚ) (cat : String) (pr : ℚ) (fs : Option ℚ) : Cand :=
  { product_id := pid, semantic_score := s, rate := 0, review_count := 0,
    price := pr, category := cat, brand := "", material := "",
    payment_methods := [], final_score := fs }

/-- budgetRange dict of UserSearchRequest: min defaults to 0, max to
infinity (main.py lines 509-510).  none models a missing key. -/
structure BudgetRange where
  bmin : Option ℚ
  bmax : Option ℚ
deriving DecidableEq, Repr

/-- preferences dict: lists of acceptable categories, brands, materials;
an empty list is falsy in Python and imposes no constraint. -/
structure Prefs where
  categories : List String
  brands : List String
  materials : List String
deriving DecidableEq, Repr

/-- UserSearchRequest (main.py lines 60-66).  budgetRange and preferences
are dicts whose Python truthiness gates the filters; none models a
falsy (empty) dict.  preferredPaymentMethod is a string, falsy when "". -/
structure UserSearchRequest where
  query : String
  userId : String
  budgetRange : Option BudgetRange
  preferences : Option Prefs
  preferredPaymentMethod : String
  top_k : ℕ := 15
deriving DecidableEq, Repr

/-- Budget predicate (main.py line 511): min_budget <= price <= max_budget,
with the defaults of lines 509-510. -/
def candInBudget (b : BudgetRange) (r : Cand) : Bool :=
  decide (b.bmin.getD 0 ≤ r.price) &&
    (match b.bmax with
     | none => true
     | some m => decide (r.price ≤ m))

/-- Category sub-predicate (main.py lines 518-520): checked only when the
categories preference list is non-empty; the candidate category must be
a member, with no exemption for the empty string. -/
def catOk (p : Prefs) (r : Cand) : Bool :=
  p.categories.isEmpty || decide (r.category ∈ p.categories)

/-- Brand sub-predicate (main.py lines 521-523): a falsy (empty) brand
string passes; otherwise membership is required when the brands list is
non-empty. -/
def brandOk (p : Prefs) (r : Cand) : Bool :=
  p.brands.isEmpty || decide (r.brand = "") || decide (r.brand ∈ p.brands)

/-- Material sub-predicate (main.py lines 524-526): same shape as the
brand sub-predicate. -/
def matOk (p : Prefs) (r : Cand) : Bool :=
  p.materials.isEmpty || decide (r.material = "") || decide (r.material ∈ p.materials)

/-- The combined ok flag of the preferences loop (main.py lines 516-528). -/
def prefOk (prefs : Option Prefs) (r : Cand) : Bool :=
  match prefs with
  | none => true
  | some p => catOk p r && brandOk p r && matOk p r

/-- Payment predicate (main.py line 534): preferred method is a member of
the payment_methods list of the candidate. -/
def payOk (pm : String) (r : Cand) : Bool :=
  decide (pm ∈ r.payment_methods)

/-- The soft-fallback application shared by the three filter stages:
filter by the predicate, but keep the working set unchanged when the
filtered set is empty. -/
def fallbackApply (p : Cand → Bool) (cands : List Cand) : List Cand :=
  let filtered := cands.filter p
  if filtered.isEmpty then cands else filtered

/-- Budget filter with relaxation (main.py lines 506-512): filtered_budget
stays empty when budgetRange is falsy, and an empty filtered_budget keeps
the previous candidates. -/
def budgetStage (req : UserSearchRequest) (cands : List Cand) : List Cand :=
  let filtered :=
    match req.budgetRange with
    | some b => cands.filter (candInBudget b)
    | none => []
  if filtered.isEmpty then cands else filtered

/-- Preferences filter with relaxation (main.py lines 514-529). -/
def prefStage (req : UserSearchRequest) (cands : List Cand) : List Cand :=
  let filtered := cands.filter (prefOk req.preferences)
  if filtered.isEmpty then cands else filtered

/-- Payment method filter with relaxation (main.py lines 531-535):
filtered_payment stays empty when preferredPaymentMethod is falsy. -/
def paymentStage (req : UserSearchRequest) (cands : List Cand) : List Cand :=
  let filtered :=
    if req.preferredPaymentMethod = "" then []
    else cands.filter (payOk req.preferredPaymentMethod)
  if filtered.isEmpty then cands else filtered

/-- The whole constraint-filter block of user_search (main.py lines
506-535), budget then preferences then payment method. -/
def userFilter (req : UserSearchRequest) (cands : List Cand) : List Cand :=
  paymentStage req (prefStage req (budgetStage req cands))

lemma fallbackApply_ne_nil (p : Cand → Bool) (cands : List Cand)
    (h : cands ≠ []) : fallbackApply p cands ≠ [] := by
  show (if (cands.filter p).isEmpty then cands else cands.filter p) ≠ []
  split
  · exact h
  · next hf => simpa [List.isEmpty_iff] using hf

lemma budgetStage_eq (req : UserSearchRequest) (cands : List Cand) :
    budgetStage req cands =
      match req.budgetRange with
      | some b => fallbackApply (candInBudget b) cands
      | none => cands := by
  cases hb : req.budgetRange <;> simp [budgetStage, fallbackApply, hb]

lemma prefStage_eq (req : UserSearchRequest) (cands : List Cand) :
    prefStage req cands = fallbackApply (prefOk req.preferences) cands := rfl

lemma paymentStage_eq (req : UserSearchRequest) (cands : List Cand) :
    paymentStage req cands =
      if req.preferredPaymentMethod = "" then cands
      else fallbackApply (payOk req.preferredPaymentMethod) cands := by
  by_cases hpm : req.preferredPaymentMethod = "" <;>
    simp [paymentStage, fallbackApply, hpm]

lemma budgetStage_ne_nil (req : UserSearchRequest) (cands : List Cand)
    (h : cands ≠ []) : budgetStage req cands ≠ [] := by
  rw [budgetStage_eq]
  cases req.budgetRange with
  | none => exact h
  | some b => exact fallbackApply_ne_nil _ _ h

lemma prefStage_ne_nil (req : UserSearchRequest) (cands : List Cand)
    (h : cands ≠ []) : prefStage req cands ≠ [] := by
  rw [prefStage_eq]
  exact fallbackApply_ne_nil _ _ h

lemma paymentStage_ne_nil (req : UserSearchRequest) (cands : List Cand)
    (h : cands ≠ []) : paymentStage req cands ≠ [] := by
  rw [paymentStage_eq]
  split
  · exact h
  · exact fallbackApply_ne_nil _ _ h

/-- C1: the filter block applies the budget, preference and payment-method
predicates each to the current working set; a predicate whose application
would empty the set is skipped, keeping the working set from before it
(each stage equals the fallback application of its predicate when the
predicate is requested and is the identity otherwise); consequently a
non-empty input always yields a non-empty output. -/
theorem C1_filter_fallback_nonempty (req : UserSearchRequest) (cands : List Cand) :
    (∀ b, req.budgetRange = some b →
      budgetStage req cands = fallbackApply (candInBudget b) cands) ∧
    (req.budgetRange = none → budgetStage req cands = cands) ∧
    (prefStage req cands = fallbackApply (prefOk req.preferences) cands) ∧
    (req.preferredPaymentMethod ≠ "" →
      paymentStage req cands = fallbackApply (payOk req.preferredPaymentMethod) cands) ∧
    (req.preferredPaymentMethod = "" → paymentStage req cands = cands) ∧
    (userFilter req cands = paymentStage req (prefStage req (budgetStage req cands))) ∧
    (cands ≠ [] → userFilter req cands ≠ []) := by
  refine ⟨?_, ?_, prefStage_eq req cands, ?_, ?_, rfl, ?_⟩
  · intro b hb
    rw [budgetStage_eq, hb]
  · intro hb
    rw [budgetStage_eq, hb]
  · intro hpm
    rw [paymentStage_eq, if_neg hpm]
  · intro hpm
    rw [paymentStage_eq, if_pos hpm]
  · intro hne
    exact paymentStage_ne_nil req _ (prefStage_ne_nil req _ (budgetStage_ne_nil req _ hne))

/-- A concrete budget range used by witnesses. -/
def bW : BudgetRange := { bmin := some 0, bmax := some 10 }

/-- A concrete request used by witnesses. -/
def reqW : UserSearchRequest :=
  { query := "q", userId := "u", budgetRange := some bW,
    preferences := none, preferredPaymentMethod := "card" }

/-- C1 witness: the theorem instantiated at a concrete request and a
concrete one-candidate list, all hypotheses discharged. -/
theorem C1_filter_fallback_nonempty_witness :
    budgetStage reqW [mkCand "a" 1 "A" 5 none] =
      fallbackApply (candInBudget bW) [mkCand "a" 1 "A" 5 none] ∧
    userFilter reqW [mkCand "a" 1 "A" 5 none] ≠ [] := by
  have h := C1_filter_fallback_nonempty reqW [mkCand "a" 1 "A" 5 none]
  exact ⟨h.1 _ rfl, h.2.2.2.2.2.2 (by decide)⟩

/-- C10: the preference sub-predicates treat empty-attribute candidates
asymmetrically: with a non-empty brands (materials) list an empty brand
(material) passes, while with a non-empty categories list not containing
the empty string an empty category fails. -/
theorem C10_empty_attribute_asymmetry (p : Prefs) (r : Cand) :
    (p.brands ≠ [] → r.brand = "" → brandOk p r = true) ∧
    (p.materials ≠ [] → r.material = "" → matOk p r = true) ∧
    (p.categories ≠ [] → "" ∉ p.categories → r.category = "" → catOk p r = false) := by
  refine ⟨?_, ?_, ?_⟩
  · intro _ hb
    simp [brandOk, hb]
  · intro _ hm
    simp [matOk, hm]
  · intro hc hnm hr
    simp [catOk, hc, hr]
    intro hmem
    exact hnm hmem

/-- Concrete preferences used by the C10 witness. -/
def prefsW : Prefs := { categories := ["A"], brands := ["B"], materials := ["M"] }

/-- C10 witness: the theorem instantiated at concrete preferences and a
candidate whose category, brand and material are all empty strings. -/
theorem C10_empty_attribute_asymmetry_witness :
    brandOk prefsW (mkCand "x" 1 "" 0 none) = true ∧
    matOk prefsW (mkCand "x" 1 "" 0 none) = true ∧
    catOk prefsW (mkCand "x" 1 "" 0 none) = false := by
  have h := C10_empty_attribute_asymmetry prefsW (mkCand "x" 1 "" 0 none)
  exact ⟨h.1 (by decide) rfl, h.2.1 (by decide) rfl, h.2.2 (by decide) (by decide) rfl⟩

/-! ## MMR diversification (apply_mmr, main.py lines 627-675)

The source reads the final_score dict key of every remaining candidate
on each loop iteration; a record lacking the key raises a KeyError,
modelled as an Except error.  Python list.remove drops the first
structurally equal element and max with a key returns the first element
attaining the maximum. -/

/-- The diversity term of the loop body (main.py lines 656-664): fraction
of already selected items whose category differs. -/
def diversityOf (selected : List Cand) (c : Cand) : ℚ :=
  if selected.isEmpty then 0
  else (selected.countP (fun s => s.category ≠ c.category) : ℚ) / (selected.length : ℚ)

/-- One pass over remaining computing the MMR score pairs (main.py lines
650-668); the final_score lookup of a record without the key is the
KeyError. -/
def scoreAll (lam : ℚ) (selected : List Cand) : List Cand → Except Unit (List (Cand × ℚ))
  | [] => .ok []
  | c :: rest =>
    match c.final_score with
    | none => .error ()
    | some rel =>
      match scoreAll lam selected rest with
      | .error e => .error e
      | .ok others => .ok ((c, lam * rel - (1 - lam) * diversityOf selected c) :: others)

/-- Python max over the score pairs with key the second component: the
first element attaining the maximum wins (main.py line 671). -/
def pyMaxSnd : Cand × ℚ → List (Cand × ℚ) → Cand × ℚ
  | best, [] => best
  | best, x :: rest => pyMaxSnd (if best.2 < x.2 then x else best) rest

/-- Python list.remove: drop the first element equal to the argument
(main.py line 673). -/
def pyRemove (a : Cand) : List Cand → List Cand
  | [] => []
  | b :: l => if b = a then l else b :: pyRemove a l

/-- The while loop of apply_mmr (main.py lines 649-673), with fuel equal
to the length of remaining, which bounds the number of iterations. -/
def mmrLoop (lam : ℚ) (k : ℕ) : ℕ → List Cand → List Cand → Except Unit (List Cand)
  | 0, selected, _ => .ok selected
  | fuel + 1, selected, remaining =>
    if selected.length < k ∧ remaining ≠ [] then
      match scoreAll lam selected remaining with
      | .error e => .error e
      | .ok [] => .ok selected
      | .ok (s0 :: rest) =>
        mmrLoop lam k fuel (selected ++ [(pyMaxSnd s0 rest).1])
          (pyRemove (pyMaxSnd s0 rest).1 remaining)
    else .ok selected

/-- apply_mmr (main.py lines 627-675): returns the input unchanged when
its length is at most k, otherwise seeds the selection with the first
element and runs the greedy loop. -/
def apply_mmr (results : List Cand) (lambda_param : ℚ) (k : ℕ) : Except Unit (List Cand) :=
  if results.length ≤ k then .ok results
  else
    match results with
    | [] => .ok []
    | c0 :: rest => mmrLoop lambda_param k rest.length [c0] rest

/-- The MMR call site of user_search (main.py lines 537-543): empty input
short-circuits to an empty list, otherwise k is the minimum of twice
top_k and the input length. -/
def mmrStage (topk : ℕ) (cands : List Cand) : Except Unit (List Cand) :=
  if cands.isEmpty then .ok []
  else apply_mmr cands (7 / 10) (min (topk * 2) cands.length)

/-- C4: user_search passes filter-stage candidates, which carry no
final_score yet, to apply_mmr; as soon as the greedy loop runs it reads
the missing final_score key, so the stage raises a KeyError instead of
completing (contradicting the spec that nothing in the ranking core
raises during normal operation).  Concretely, three filter-stage
candidates with top_k = 1 make the call fail. -/
theorem C4_mmr_keyerror_on_filter_candidates :
    mmrStage 1 [mkCand "a" (9/10) "A" 0 none, mkCand "b" (8/10) "B" 0 none,
      mkCand "c" (7/10) "C" 0 none] = .error () ∧
    (mkCand "b" (8/10) "B" 0 none).final_score = none := by
  exact ⟨rfl, rfl⟩

lemma mmrLoop_done (lam : ℚ) (k fuel : ℕ) (selected remaining : List Cand)
    (h : k ≤ selected.length) : mmrLoop lam k fuel selected remaining = .ok selected := by
  cases fuel with
  | zero => rfl
  | succ n =>
    have hneg : ¬ (selected.length < k ∧ remaining ≠ []) := by
      rintro ⟨h1, -⟩
      omega
    simp only [mmrLoop, if_neg hneg]

lemma scoreAll_ok (lam : ℚ) (selected : List Cand) :
    ∀ remaining : List Cand, (∀ c ∈ remaining, c.final_score.isSome) →
      ∃ scores, scoreAll lam selected remaining = .ok scores ∧
        scores.map Prod.fst = remaining := by
  intro remaining
  induction remaining with
  | nil => exact fun _ => ⟨[], rfl, rfl⟩
  | cons c rest ih =>
    intro h
    obtain ⟨rel, hrel⟩ := Option.isSome_iff_exists.mp (h c (List.mem_cons_self c rest))
    obtain ⟨scores, hs, hmap⟩ := ih fun x hx => h x (List.mem_cons_of_mem _ hx)
    refine ⟨(c, lam * rel - (1 - lam) * diversityOf selected c) :: scores, ?_, ?_⟩
    · simp [scoreAll, hrel, hs]
    · simp [hmap]

lemma pyMaxSnd_mem (best : Cand × ℚ) : ∀ rest, pyMaxSnd best rest ∈ best :: rest := by
  intro rest
  induction rest generalizing best with
  | nil => simp [pyMaxSnd]
  | cons x r ih =>
    rw [pyMaxSnd]
    rcases List.mem_cons.mp (ih (if best.2 < x.2 then x else best)) with h | h
    · rw [h]
      by_cases hx : best.2 < x.2 <;> simp [hx]
    · simp [h]

lemma pyRemove_length (a : Cand) : ∀ l, a ∈ l → (pyRemove a l).length + 1 = l.length := by
  intro l
  induction l with
  | nil => simp
  | cons b t ih =>
    intro h
    by_cases hb : b = a
    · simp [pyRemove, hb]
    · have hat : a ∈ t := by
        rcases List.mem_cons.mp h with h1 | h1
        · exact absurd h1.symm hb
        · exact h1
      simp [pyRemove, hb, ih hat]

lemma pyRemove_subset (a : Cand) : ∀ l x, x ∈ pyRemove a l → x ∈ l := by
  intro l
  induction l with
  | nil => intro x h; simp [pyRemove] at h
  | cons b t ih =>
    intro x h
    by_cases hb : b = a
    · simp only [pyRemove, if_pos hb] at h
      exact List.mem_cons_of_mem _ h
    · simp only [pyRemove, if_neg hb, List.mem_cons] at h
      rcases h with h | h
      · exact h ▸ List.mem_cons_self _ _
      · exact List.mem_cons_of_mem _ (ih x h)

lemma mmrLoop_length (lam : ℚ) (k : ℕ) : ∀ fuel (selected remaining : List Cand),
    remaining.length ≤ fuel → (∀ c ∈ remaining, c.final_score.isSome) →
    ∃ out, mmrLoop lam k fuel selected remaining = .ok out ∧
      out.length = max selected.length (min k (selected.length + remaining.length)) := by
  intro fuel
  induction fuel with
  | zero =>
    intro selected remaining hlen _
    have hrem : remaining = [] := List.length_eq_zero.mp (Nat.le_zero.mp hlen)
    subst hrem
    refine ⟨selected, rfl, ?_⟩
    simp
  | succ n ih =>
    intro selected remaining hlen hsome
    by_cases hc : selected.length < k ∧ remaining ≠ []
    · obtain ⟨scores, hs, hmap⟩ := scoreAll_ok lam selected remaining hsome
      cases scores with
      | nil => exact absurd (by simpa using hmap.symm) hc.2
      | cons s0 rest =>
        have hbestmem : (pyMaxSnd s0 rest).1 ∈ remaining := by
          have hm : (pyMaxSnd s0 rest).1 ∈ (s0 :: rest).map Prod.fst :=
            List.mem_map_of_mem _ (pyMaxSnd_mem s0 rest)
          rwa [hmap] at hm
        have hrl := pyRemove_length _ remaining hbestmem
        obtain ⟨out, hout, houtlen⟩ := ih (selected ++ [(pyMaxSnd s0 rest).1])
          (pyRemove (pyMaxSnd s0 rest).1 remaining) (by omega)
          (fun c hcm => hsome c (pyRemove_subset _ remaining c hcm))
        refine ⟨out, ?_, ?_⟩
        · rw [mmrLoop, if_pos hc, hs]
          exact hout
        · rw [houtlen]
          simp only [List.length_append, List.length_singleton]
          have hc1 := hc.1
          omega
    · refine ⟨selected, by rw [mmrLoop, if_neg hc], ?_⟩
      by_cases hk : selected.length < k
      · have hrem : remaining = [] := by
          by_contra hne
          exact hc ⟨hk, hne⟩
        subst hrem
        simp
      · omega

/-- C2 counterexample: for k = 0 and a non-empty input, apply_mmr does not
return an empty output: the seeding step has already selected the first
candidate before the loop condition is checked, so a singleton comes
back. -/
theorem C2_counterexample_k_zero :
    apply_mmr [mkCand "a" 1 "A" 0 (some 1)] (7 / 10) 0 =
      .ok [mkCand "a" 1 "A" 0 (some 1)] ∧
    [mkCand "a" 1 "A" 0 (some 1)] ≠ ([] : List Cand) := by
  exact ⟨rfl, by decide⟩

/-- C2 amended: apply_mmr returns the input unchanged when its length is
at most k (hence empty input gives empty output); when every record has a
final_score, k at least 1 and k below the length, it returns exactly k
elements; but for k = 0 and non-empty input it returns a singleton (the
seed), not an empty list. -/
theorem C2_amended_mmr_length (l : List Cand) (lam : ℚ) (k : ℕ) :
    (l.length ≤ k → apply_mmr l lam k = .ok l) ∧
    (l = [] → apply_mmr l lam k = .ok []) ∧
    (1 ≤ k → k < l.length → (∀ c ∈ l, c.final_score.isSome) →
      ∃ out, apply_mmr l lam k = .ok out ∧ out.length = k) ∧
    (l ≠ [] → ∃ c, apply_mmr l lam 0 = .ok [c]) := by
  refine ⟨?_, ?_, ?_, ?_⟩
  · intro h
    simp [apply_mmr, h]
  · intro h
    subst h
    simp [apply_mmr]
  · intro hk hkl hsome
    have hnle : ¬ (l.length ≤ k) := by omega
    cases l with
    | nil => simp at hkl
    | cons c0 rest =>
      obtain ⟨out, hout, houtlen⟩ := mmrLoop_length lam k rest.length [c0] rest le_rfl
        (fun c hcm => hsome c (List.mem_cons_of_mem _ hcm))
      refine ⟨out, ?_, ?_⟩
      · simp only [apply_mmr, if_neg hnle]
        exact hout
      · rw [houtlen]
        have h1 : ([c0] : List Cand).length = 1 := rfl
        simp only [List.length_cons] at hkl
        rw [h1]
        omega
  · intro hne
    cases l with
    | nil => exact absurd rfl hne
    | cons c0 rest =>
      refine ⟨c0, ?_⟩
      have hnle : ¬ ((c0 :: rest).length ≤ 0) := by simp
      simp only [apply_mmr, if_neg hnle]
      exact mmrLoop_done lam 0 rest.length [c0] rest (by simp)

/-- C2 witness: the amended theorem at a concrete two-candidate list with
final scores, for k = 1 and k = 0, hypotheses discharged. -/
theorem C2_amended_mmr_length_witness :
    (∃ out, apply_mmr [mkCand "a" 1 "A" 0 (some 1), mkCand "b" (1/2) "B" 0 (some (1/2))]
        (7 / 10) 1 = .ok out ∧ out.length = 1) ∧
    (∃ c, apply_mmr [mkCand "a" 1 "A" 0 (some 1), mkCand "b" (1/2) "B" 0 (some (1/2))]
        (7 / 10) 0 = .ok [c]) := by
  have h1 := C2_amended_mmr_length
    [mkCand "a" 1 "A" 0 (some 1), mkCand "b" (1/2) "B" 0 (some (1/2))] (7 / 10) 1
  have h0 := C2_amended_mmr_length
    [mkCand "a" 1 "A" 0 (some 1), mkCand "b" (1/2) "B" 0 (some (1/2))] (7 / 10) 0
  exact ⟨h1.2.2.1 (by decide) (by decide) (by decide), h0.2.2.2 (by decide)⟩

/-- The score apply_mmr reads, as a total function: the final_score key
with the default 0 used by the final sort (main.py line 559). -/
def scoreKey (r : Cand) : ℚ := r.final_score.getD 0

lemma head?_append_singleton (sel : List Cand) (x : Cand) (h : sel ≠ []) :
    (sel ++ [x]).head? = sel.head? := by
  cases sel with
  | nil => exact absurd rfl h
  | cons a t => simp

lemma mmrLoop_head (lam : ℚ) (k : ℕ) : ∀ fuel (selected remaining out : List Cand),
    selected ≠ [] → mmrLoop lam k fuel selected remaining = .ok out →
    out.head? = selected.head? := by
  intro fuel
  induction fuel with
  | zero =>
    intro sel rem out _ h
    simp only [mmrLoop, Except.ok.injEq] at h
    rw [← h]
  | succ n ih =>
    intro sel rem out hne h
    simp only [mmrLoop] at h
    by_cases hc : sel.length < k ∧ rem ≠ []
    · rw [if_pos hc] at h
      rcases hsc : scoreAll lam sel rem with e | scores
      · rw [hsc] at h
        simp at h
      · rw [hsc] at h
        cases scores with
        | nil =>
          simp only [Except.ok.injEq] at h
          rw [← h]
        | cons s0 rest =>
          have hout := ih (sel ++ [(pyMaxSnd s0 rest).1]) (pyRemove (pyMaxSnd s0 rest).1 rem)
            out (by simp) h
          rw [hout, head?_append_singleton sel _ hne]
    · rw [if_neg hc] at h
      simp only [Except.ok.injEq] at h
      rw [← h]

lemma scoreAll_one (selected : List Cand) :
    ∀ remaining : List Cand, (∀ c ∈ remaining, c.final_score.isSome) →
      scoreAll 1 selected remaining = .ok (remaining.map fun c => (c, scoreKey c)) := by
  intro remaining
  induction remaining with
  | nil => exact fun _ => rfl
  | cons c rest ih =>
    intro h
    obtain ⟨rel, hrel⟩ := Option.isSome_iff_exists.mp (h c (List.mem_cons_self c rest))
    have hr := ih fun x hx => h x (List.mem_cons_of_mem _ hx)
    simp [scoreAll, hrel, hr, scoreKey]

lemma pyMaxSnd_eq_of_max (best : Cand × ℚ) :
    ∀ rest, (∀ x ∈ rest, x.2 ≤ best.2) → pyMaxSnd best rest = best := by
  intro rest
  induction rest with
  | nil => exact fun _ => rfl
  | cons x r ih =>
    intro h
    have hx : ¬ best.2 < x.2 := not_lt.mpr (h x (List.mem_cons_self x r))
    rw [pyMaxSnd, if_neg hx]
    exact ih fun y hy => h y (List.mem_cons_of_mem _ hy)

lemma pyRemove_cons_self (a : Cand) (t : List Cand) : pyRemove a (a :: t) = t := by
  simp [pyRemove]

lemma mmrLoop_succ_ok (lam : ℚ) (k fuel : ℕ) (sel rem : List Cand) (s0 : Cand × ℚ)
    (rest : List (Cand × ℚ)) (hc : sel.length < k ∧ rem ≠ [])
    (hs : scoreAll lam sel rem = .ok (s0 :: rest)) :
    mmrLoop lam k (fuel + 1) sel rem =
      mmrLoop lam k fuel (sel ++ [(pyMaxSnd s0 rest).1])
        (pyRemove (pyMaxSnd s0 rest).1 rem) := by
  rw [mmrLoop, if_pos hc, hs]

lemma mmrLoop_one_take (l : List Cand) (k : ℕ)
    (hsort : l.Sorted (fun a b => scoreKey b ≤ scoreKey a))
    (hsome : ∀ c ∈ l, c.final_score.isSome) (hk : k < l.length) :
    ∀ fuel n, 1 ≤ n → n ≤ k → l.length - n ≤ fuel →
      mmrLoop 1 k fuel (l.take n) (l.drop n) = .ok (l.take k) := by
  intro fuel
  induction fuel with
  | zero =>
    intro n _ hnk hfuel
    exact absurd hfuel (by omega)
  | succ m ih =>
    intro n h1 hnk hfuel
    have hnl : n < l.length := by omega
    have htaken : (l.take n).length = n := List.length_take_of_le (le_of_lt hnl)
    by_cases hnkeq : n = k
    · subst hnkeq
      exact mmrLoop_done 1 n (m + 1) (l.take n) (l.drop n) (le_of_eq htaken.symm)
    · have hnk2 : n < k := lt_of_le_of_ne hnk hnkeq
      have hdrop : l.drop n = l[n] :: l.drop (n + 1) := List.drop_eq_getElem_cons hnl
      have hcond : (l.take n).length < k ∧ l.drop n ≠ [] :=
        ⟨by omega, by rw [hdrop]; exact List.cons_ne_nil _ _⟩
      have hsome2 : ∀ c ∈ l.drop n, c.final_score.isSome :=
        fun c hcm => hsome c (List.mem_of_mem_drop hcm)
      have hsorted2 : (l.drop n).Sorted (fun a b => scoreKey b ≤ scoreKey a) :=
        hsort.sublist (List.drop_sublist n l)
      rw [hdrop] at hsorted2
      have hmax : ∀ x ∈ (l.drop (n + 1)).map (fun c => (c, scoreKey c)),
          x.2 ≤ scoreKey l[n] := by
        intro x hx
        obtain ⟨c, hcm, hcx⟩ := List.mem_map.mp hx
        rw [← hcx]
        exact List.rel_of_sorted_cons hsorted2 c hcm
      have hbest := pyMaxSnd_eq_of_max (l[n], scoreKey l[n]) _ hmax
      have hscores : scoreAll 1 (l.take n) (l.drop n) =
          .ok ((l[n], scoreKey l[n]) ::
            (l.drop (n + 1)).map (fun c => (c, scoreKey c))) := by
        rw [scoreAll_one (l.take n) (l.drop n) hsome2, hdrop, List.map_cons]
      rw [mmrLoop_succ_ok 1 k m (l.take n) (l.drop n) _ _ hcond hscores]
      have hsel : l.take n ++ [(pyMaxSnd (l[n], scoreKey l[n])
          ((l.drop (n + 1)).map (fun c => (c, scoreKey c)))).1] = l.take (n + 1) := by
        rw [hbest]
        exact List.take_concat_get' l n hnl
      have hrem : pyRemove (pyMaxSnd (l[n], scoreKey l[n])
          ((l.drop (n + 1)).map (fun c => (c, scoreKey c)))).1 (l.drop n) =
          l.drop (n + 1) := by
        rw [hbest, hdrop]
        exact pyRemove_cons_self _ _
      rw [hsel, hrem]
      exact ih (n + 1) (by omega) (by omega) (by omega)

/-- C7 counterexample: with lambda = 1 and k = 0 on a non-empty sorted
list, the output is the singleton seed instead of the empty top-0
selection, because the seed is taken before the loop bound is checked. -/
theorem C7_counterexample_k_zero :
    apply_mmr [mkCand "a" 1 "A" 0 (some 1)] 1 0 =
      .ok [mkCand "a" 1 "A" 0 (some 1)] ∧
    List.take 0 [mkCand "a" 1 "A" 0 (some 1)] = ([] : List Cand) ∧
    [mkCand "a" 1 "A" 0 (some 1)] ≠ ([] : List Cand) := by
  exact ⟨rfl, rfl, by decide⟩

/-- C7 amended: for a candidate list sorted descending by score whose
records all carry final_score and with more than k elements, the first
element of the output of apply_mmr equals the head (the highest-scored
candidate) for every lambda, and for lambda = 1 and k at least 1 the
output is exactly the first k candidates (the top-k by score in score
order).  For k = 0 the output is the singleton seed, not the empty
top-0. -/
theorem C7_amended_mmr_sorted (l : List Cand) (k : ℕ) (lam : ℚ)
    (hsort : l.Sorted (fun a b => scoreKey b ≤ scoreKey a))
    (hsome : ∀ c ∈ l, c.final_score.isSome) (hk : k < l.length) :
    (∃ out, apply_mmr l lam k = .ok out ∧ out.head? = l.head?) ∧
    (1 ≤ k → apply_mmr l 1 k = .ok (l.take k)) := by
  have hnle : ¬ (l.length ≤ k) := by omega
  constructor
  · cases l with
    | nil => simp at hk
    | cons c0 rest =>
      obtain ⟨out, hout, _⟩ := mmrLoop_length lam k rest.length [c0] rest le_rfl
        (fun c hcm => hsome c (List.mem_cons_of_mem _ hcm))
      refine ⟨out, ?_, ?_⟩
      · simp only [apply_mmr, if_neg hnle]
        exact hout
      · have hh := mmrLoop_head lam k rest.length [c0] rest out (by simp) hout
        simpa using hh
  · intro hk1
    have h := mmrLoop_one_take l k hsort hsome hk (l.length - 1) 1 le_rfl hk1 (by omega)
    cases l with
    | nil => simp at hk
    | cons c0 rest =>
      simp only [apply_mmr, if_neg hnle]
      simp only [List.length_cons, Nat.add_sub_cancel, List.take_succ_cons, List.take_zero,
        List.drop_succ_cons, List.drop_zero] at h
      exact h

/-- C7 witness: the amended theorem at a concrete sorted two-candidate
list with final scores, lambda = 1 and k = 1, hypotheses discharged. -/
theorem C7_amended_mmr_sorted_witness :
    (∃ out, apply_mmr [mkCand "a" 1 "A" 0 (some 1), mkCand "b" (1/2) "B" 0 (some (1/2))]
        1 1 = .ok out ∧ out.head? = some (mkCand "a" 1 "A" 0 (some 1))) ∧
    apply_mmr [mkCand "a" 1 "A" 0 (some 1), mkCand "b" (1/2) "B" 0 (some (1/2))] 1 1 =
      .ok [mkCand "a" 1 "A" 0 (some 1)] := by
  have h := C7_amended_mmr_sorted
    [mkCand "a" 1 "A" 0 (some 1), mkCand "b" (1/2) "B" 0 (some (1/2))] 1 1
    (by simp [List.sorted_cons, scoreKey, mkCand]; norm_num)
    (by decide) (by decide)
  exact ⟨h.1, h.2 le_rfl⟩

/-! ## Reranking and final sort (main.py lines 545-559)

The reranking loop assigns final_score = semantic_score + 0.1 * rate +
0.001 * review_count to every candidate; the caller then sorts the list
descending by final_score with Python sorted (a stable sort, so ties
keep input order) and truncates to top_k. -/

/-- The reranking formula (main.py lines 549-553). -/
def fscore (r : Cand) : ℚ :=
  r.semantic_score + (1 / 10) * r.rate + (1 / 1000) * (r.review_count : ℚ)

/-- The reranking pass as a function on sequences (main.py lines 546-555):
every record receives final_score = fscore. -/
def rerank (l : List Cand) : List Cand :=
  l.map fun r => { r with final_score := some (fscore r) }

instance descRelDecidable : DecidableRel (fun a b : Cand => scoreKey b ≤ scoreKey a) :=
  fun a b => inferInstanceAs (Decidable (scoreKey b ≤ scoreKey a))

instance descRelTotal : IsTotal Cand (fun a b => scoreKey b ≤ scoreKey a) :=
  ⟨fun a b => le_total (scoreKey b) (scoreKey a)⟩

instance descRelTrans : IsTrans Cand (fun a b => scoreKey b ≤ scoreKey a) :=
  ⟨fun _ _ _ hab hbc => le_trans hbc hab⟩

/-- Python sorted with key final_score (default 0) and reverse=True
(main.py line 559), modelled as the stable descending insertion sort:
an element is inserted before the first element whose key is at most its
own, so equal keys keep input order, exactly the stability guarantee of
Python sorted. -/
def pySortDesc (l : List Cand) : List Cand :=
  l.insertionSort fun a b => scoreKey b ≤ scoreKey a

/-- Lines 557-559 of main.py: base_list is the reranked list when it is
non-empty (it is empty only for an empty input), sorted descending by
final_score and truncated to top_k. -/
def searchFinalResults (topk : ℕ) (l : List Cand) : List Cand :=
  let reranked := rerank l
  let base := if reranked.isEmpty then l else reranked
  (pySortDesc base).take topk

lemma searchFinalResults_eq (topk : ℕ) (l : List Cand) :
    searchFinalResults topk l = (pySortDesc (rerank l)).take topk := by
  cases l with
  | nil => rfl
  | cons c t => rfl

lemma filter_orderedInsert (v : ℚ) (a : Cand) : ∀ l : List Cand,
    (List.orderedInsert (fun x y => scoreKey y ≤ scoreKey x) a l).filter
        (fun r => decide (scoreKey r = v)) =
      if scoreKey a = v then a :: l.filter (fun r => decide (scoreKey r = v))
      else l.filter (fun r => decide (scoreKey r = v)) := by
  intro l
  induction l with
  | nil =>
    by_cases hav : scoreKey a = v <;> simp [List.orderedInsert, hav]
  | cons b t ih =>
    rw [List.orderedInsert]
    by_cases hab : scoreKey b ≤ scoreKey a
    · rw [if_pos hab]
      by_cases hav : scoreKey a = v <;> simp [List.filter_cons, hav]
    · rw [if_neg hab]
      have hlt : scoreKey a < scoreKey b := not_le.mp hab
      by_cases hav : scoreKey a = v
      · have hbv : ¬ scoreKey b = v := by
          rw [← hav]
          exact ne_of_gt hlt
        simp [List.filter_cons, hbv, hav, ih]
      · by_cases hbv : scoreKey b = v <;> simp [List.filter_cons, hbv, hav, ih]

lemma filter_pySortDesc (v : ℚ) : ∀ l : List Cand,
    (pySortDesc l).filter (fun r => decide (scoreKey r = v)) =
      l.filter (fun r => decide (scoreKey r = v)) := by
  intro l
  induction l with
  | nil => rfl
  | cons a t ih =>
    show (List.orderedInsert _ a (pySortDesc t)).filter _ = _
    rw [filter_orderedInsert, ih]
    by_cases hav : scoreKey a = v <;> simp [List.filter_cons, hav]

/-- C3: reranking assigns final_score = semantic_score + 0.1 * rate +
0.001 * review_count to every candidate, deterministically from those
three fields only; the caller then sorts descending by final_score with
a stable sort (elements of equal key keep their input order, stated as
filter preservation together with sortedness and permutation) and
truncates to top_k. -/
theorem C3_rerank_formula_stable_sort (l : List Cand) (topk : ℕ) :
    ((rerank l).map (fun r => r.final_score) =
      l.map fun r => some (r.semantic_score + (1 / 10) * r.rate +
        (1 / 1000) * (r.review_count : ℚ))) ∧
    (∀ r s : Cand, r.semantic_score = s.semantic_score → r.rate = s.rate →
      r.review_count = s.review_count → fscore r = fscore s) ∧
    (pySortDesc (rerank l)).Sorted (fun a b => scoreKey b ≤ scoreKey a) ∧
    (pySortDesc (rerank l)).Perm (rerank l) ∧
    (∀ v : ℚ, (pySortDesc (rerank l)).filter (fun r => decide (scoreKey r = v)) =
      (rerank l).filter (fun r => decide (scoreKey r = v))) ∧
    searchFinalResults topk l = (pySortDesc (rerank l)).take topk ∧
    (searchFinalResults topk l).length = min topk l.length := by
  refine ⟨?_, ?_, ?_, ?_, ?_, searchFinalResults_eq topk l, ?_⟩
  · simp [rerank, fscore]
  · intro r s h1 h2 h3
    simp [fscore, h1, h2, h3]
  · exact List.sorted_insertionSort _ (rerank l)
  · exact List.perm_insertionSort _ (rerank l)
  · exact fun v => filter_pySortDesc v (rerank l)
  · rw [searchFinalResults_eq, List.length_take, pySortDesc,
      List.length_insertionSort, rerank, List.length_map]

/-- C3 witness: the theorem at a concrete list, with the determinism
conjunct applied to two concrete records agreeing on the three score
fields and differing elsewhere. -/
theorem C3_rerank_formula_stable_sort_witness :
    fscore (mkCand "a" 1 "A" 0 none) = fscore (mkCand "b" 1 "B" 5 none) ∧
    searchFinalResults 1 [mkCand "a" 1 "A" 0 none] =
      (pySortDesc (rerank [mkCand "a" 1 "A" 0 none])).take 1 := by
  have h := C3_rerank_formula_stable_sort [mkCand "a" 1 "A" 0 none] 1
  exact ⟨h.2.1 (mkCand "a" 1 "A" 0 none) (mkCand "b" 1 "B" 5 none) rfl rfl rfl,
    h.2.2.2.2.2.1⟩

/-! ## Heap model of the reranking loop (main.py lines 546-555)

The reranking loop body executes result[final_score] = ..., assigning
into the very dict objects that the filter stage list still references
(mmr_input is a shallow copy of the list, apply_mmr copies only the
list, never the records).  The heap is a list of records, a reference is
an index, and the loop folds an in-place update over the references. -/

/-- The in-place assignment of line 554 on one record. -/
def setFinal (r : Cand) : Cand := { r with final_score := some (fscore r) }

/-- Update the heap cell at an index (no-op past the end). -/
def modifyAt (f : Cand → Cand) : ℕ → List Cand → List Cand
  | _, [] => []
  | 0, c :: t => f c :: t
  | n + 1, c :: t => c :: modifyAt f n t

/-- The reranking loop over the heap: for each referenced record, assign
final_score in place (main.py lines 548-555). -/
def rerankHeap (refs : List ℕ) (h : List Cand) : List Cand :=
  refs.foldl (fun acc i => modifyAt setFinal i acc) h

lemma setFinal_idem (r : Cand) : setFinal (setFinal r) = setFinal r := rfl

lemma modifyAt_getElem? (f : Cand → Cand) : ∀ (n : ℕ) (l : List Cand) (i : ℕ),
    (modifyAt f n l)[i]? = if i = n then (l[i]?).map f else l[i]? := by
  intro n l
  induction l generalizing n with
  | nil =>
    intro i
    cases n <;> simp [modifyAt]
  | cons c t ih =>
    intro i
    cases n with
    | zero =>
      cases i with
      | zero => simp [modifyAt]
      | succ j => simp [modifyAt]
    | succ m =>
      cases i with
      | zero => simp [modifyAt]
      | succ j => simp [modifyAt, ih m j]

lemma rerankHeap_getElem? : ∀ (refs : List ℕ) (h : List Cand) (i : ℕ),
    (rerankHeap refs h)[i]? = if i ∈ refs then (h[i]?).map setFinal else h[i]? := by
  intro refs
  induction refs with
  | nil =>
    intro h i
    simp [rerankHeap]
  | cons r rest ih =>
    intro h i
    have hstep : rerankHeap (r :: rest) h = rerankHeap rest (modifyAt setFinal r h) := rfl
    rw [hstep, ih, modifyAt_getElem?]
    by_cases hir : i = r
    · subst hir
      by_cases hirest : i ∈ rest
      · simp only [hirest, if_pos, if_pos rfl, List.mem_cons, true_or, or_true]
        cases hx : h[i]? with
        | none => rfl
        | some c => simp [setFinal_idem]
      · simp [hirest]
    · by_cases hirest : i ∈ rest <;> simp [hir, hirest, List.mem_cons]

/-- C9 counterexample: the reranking loop mutates in place a record the
filter stage still references: after rerank, reading the heap through
the filter-stage reference 0 yields a record with final_score set, not
the record as it was before rerank, refuting that each stage leaves the
records held by earlier stages unchanged. -/
theorem C9_counterexample_rerank_mutates :
    (rerankHeap [0] [mkCand "a" 1 "A" 0 none])[0]? =
      some (setFinal (mkCand "a" 1 "A" 0 none)) ∧
    (rerankHeap [0] [mkCand "a" 1 "A" 0 none])[0]? ≠
      ([mkCand "a" 1 "A" 0 none] : List Cand)[0]? := by
  exact ⟨rfl, by decide⟩

/-- C9 amended: the filter and MMR stages build new list structure
without copying records, and the reranking stage mutates each referenced
record in place by assigning final_score, so prior stages observe the
new field through their references: after the loop, the heap cell of
every referenced index holds its old record with final_score assigned,
and every other cell is untouched. -/
theorem C9_amended_rerank_in_place (h : List Cand) (refs : List ℕ) (i : ℕ) :
    (rerankHeap refs h)[i]? = if i ∈ refs then (h[i]?).map setFinal else h[i]? :=
  rerankHeap_getElem? refs h i

/-! ## Result assembly (main.py lines 557-592)

The candidate list is sorted and truncated to top_k first (line 559);
only then is each product id resolved against MongoDB, skipping records
whose id is empty or unresolvable.  A skipped record therefore wastes
one of the top_k slots. -/

/-- A product document as read back from MongoDB in the assembly loop
(main.py lines 573-591).  rating is the nested dict when present;
otherwise the flat rate and review_count fields are used. -/
structure MongoProduct where
  pid : String
  title : String
  description : String
  price : ℚ
  category : String
  brand : String
  material : String
  image : String
  rating : Option (ℚ × ℕ)
  rate : ℚ
  review_count : ℕ
  payment_methods : List String
deriving DecidableEq, Repr

/-- The output record appended per resolved candidate (main.py lines
574-591). -/
structure Recommendation where
  rid : String
  product_id : String
  title : String
  description : String
  price : ℚ
  category : String
  brand : String
  material : String
  image : String
  rating_rate : ℚ
  rating_count : ℕ
  payment_methods : List String
  score : ℚ
deriving DecidableEq, Repr

/-- Build the recommendation payload from a resolved product and the
ranked candidate (main.py lines 574-591). -/
def mkRecommendation (p : MongoProduct) (r : Cand) : Recommendation :=
  { rid := p.pid, product_id := p.pid, title := p.title,
    description := p.description, price := p.price, category := p.category,
    brand := p.brand, material := p.material, image := p.image,
    rating_rate := match p.rating with | some rr => rr.1 | none => p.rate,
    rating_count := match p.rating with | some rr => rr.2 | none => p.review_count,
    payment_methods := p.payment_methods, score := r.final_score.getD 0 }

/-- One iteration of the assembly loop (main.py lines 563-591): an empty
product_id is skipped, an unresolved id is skipped, otherwise the
recommendation is emitted. -/
def resolveOne (repo : String → Option MongoProduct) (r : Cand) : Option Recommendation :=
  if r.product_id = "" then none
  else
    match repo r.product_id with
    | some p => some (mkRecommendation p r)
    | none => none

/-- The assembly loop over an already truncated list. -/
def assembleRecommendations (repo : String → Option MongoProduct)
    (final_results : List Cand) : List Recommendation :=
  final_results.filterMap (resolveOne repo)

/-- Truncation to top_k (line 559) followed by the assembly loop (lines
562-591): resolution only ever sees the first top_k ranked candidates. -/
def assembleStage (repo : String → Option MongoProduct) (ranked : List Cand)
    (topk : ℕ) : List Recommendation :=
  assembleRecommendations repo (ranked.take topk)

/-- The concrete product document behind id b in the counterexample
repository. -/
def prodB : MongoProduct :=
  { pid := "b", title := "B", description := "", price := 1,
    category := "B", brand := "", material := "", image := "",
    rating := none, rate := 0, review_count := 0, payment_methods := [] }

/-- A concrete one-product repository used by the C5 counterexample:
only id b resolves. -/
def repoOnlyB : String → Option MongoProduct := fun s =>
  if s = "b" then some prodB else none

/-- C5 counterexample: with ranked list [a, b], top_k = 1 and a repository
resolving only b, the whole ranked list contains one resolvable candidate
(at least top_k), yet the output is empty: the unresolvable candidate a
consumed the single slot because truncation happens before resolution. -/
theorem C5_counterexample_slot_consumed :
    assembleStage repoOnlyB
      [mkCand "a" 1 "A" 0 (some 1), mkCand "b" (1/2) "B" 0 (some (1/2))] 1 = [] ∧
    ([mkCand "a" 1 "A" 0 (some 1), mkCand "b" (1/2) "B" 0 (some (1/2))].countP
      fun r => (resolveOne repoOnlyB r).isSome) = 1 := by
  exact ⟨rfl, rfl⟩

lemma length_filterMap_eq_countP (f : Cand → Option Recommendation) :
    ∀ l : List Cand, (l.filterMap f).length = l.countP fun r => (f r).isSome := by
  intro l
  induction l with
  | nil => rfl
  | cons c t ih =>
    cases hc : f c with
    | none => simp [List.filterMap_cons, List.countP_cons, hc, ih]
    | some v => simp [List.filterMap_cons, List.countP_cons, hc, ih]

/-- C5 amended: the caller truncates the ranked list to top_k before
resolution; the assembler resolves those ids in rank order and skips an
empty or unresolvable id, so a skipped candidate does consume one of the
top_k slots: the output length is the number of resolvable candidates
among the first top_k only, is at most min top_k (length ranked), and
reaches min top_k (length ranked) exactly when all of the first top_k
candidates resolve. -/
theorem C5_amended_truncate_then_resolve (repo : String → Option MongoProduct)
    (ranked : List Cand) (topk : ℕ) :
    ((assembleStage repo ranked topk).length =
      (ranked.take topk).countP fun r => (resolveOne repo r).isSome) ∧
    (assembleStage repo ranked topk).length ≤ min topk ranked.length ∧
    ((∀ r ∈ ranked.take topk, (resolveOne repo r).isSome) →
      (assembleStage repo ranked topk).length = min topk ranked.length) := by
  have hlen := length_filterMap_eq_countP (resolveOne repo) (ranked.take topk)
  refine ⟨hlen, ?_, ?_⟩
  · calc (assembleStage repo ranked topk).length
        ≤ (ranked.take topk).length := List.length_filterMap_le _ _
      _ = min topk ranked.length := List.length_take topk ranked
  · intro hall
    have hcnt : ((ranked.take topk).countP fun r => (resolveOne repo r).isSome) =
        (ranked.take topk).length := by
      rw [List.countP_eq_length]
      exact fun a ha => hall a ha
    show ((ranked.take topk).filterMap (resolveOne repo)).length = min topk ranked.length
    rw [hlen, hcnt, List.length_take]

/-- C5 witness: the amended theorem at a concrete ranked list where both
candidates resolve, with top_k = 1. -/
theorem C5_amended_truncate_then_resolve_witness :
    (assembleStage repoOnlyB [mkCand "b" (1/2) "B" 0 (some (1/2))] 1).length =
      min 1 [mkCand "b" (1/2) "B" 0 (some (1/2))].length := by
  have h := C5_amended_truncate_then_resolve repoOnlyB
    [mkCand "b" (1/2) "B" 0 (some (1/2))] 1
  exact h.2.2 (by decide)

/-! ## Candidate construction after retrieval (main.py lines 421-470)

Each retrieval result is mapped to one candidate dict; the product_id is
the payload field, falling back to the point id.  No deduplication of
any kind is performed on the resulting list. -/

/-- A retrieval point as consumed by the candidate-building loops: the
point id, the score, and the payload fields with their defaults. -/
structure QPoint where
  qid : String
  score : ℚ
  payload_product_id : Option String
  payload_rate : ℚ
  payload_review_count : ℕ
  payload_price : ℚ
  payload_category : String
  payload_brand : String
  payload_material : String
  payload_payment_methods : List String
deriving DecidableEq, Repr

/-- One appended candidate dict (main.py lines 425-435 and 460-470). -/
def candOfPoint (p : QPoint) : Cand :=
  { product_id := p.payload_product_id.getD p.qid,
    semantic_score := p.score, rate := p.payload_rate,
    review_count := p.payload_review_count, price := p.payload_price,
    category := p.payload_category, brand := p.payload_brand,
    material := p.payload_material,
    payment_methods := p.payload_payment_methods, final_score := none }

/-- The candidate-building loop: one candidate per retrieval result, in
order. -/
def buildCandidates (pts : List QPoint) : List Cand :=
  pts.map candOfPoint

/-- A concrete retrieval point with a given payload product_id and
score. -/
def mkPoint (qid pid : String) (s : ℚ) : QPoint :=
  { qid := qid, score := s, payload_product_id := some pid, payload_rate := 0,
    payload_review_count := 0, payload_price := 0, payload_category := "",
    payload_brand := "", payload_material := "", payload_payment_methods := [] }

/-- C8 counterexample: two retrieval results carrying the same payload
product_id yield two candidates with the same id; nothing deduplicates
them, so the post-supplier candidate set keeps both records instead of
only the one with the highest relevance score. -/
theorem C8_counterexample_no_dedup :
    (buildCandidates [mkPoint "1" "p1" (9/10), mkPoint "2" "p1" (8/10)]).map
      (fun c => c.product_id) = ["p1", "p1"] ∧
    ¬ ((buildCandidates [mkPoint "1" "p1" (9/10), mkPoint "2" "p1" (8/10)]).map
      (fun c => c.product_id)).Nodup ∧
    (buildCandidates [mkPoint "1" "p1" (9/10), mkPoint "2" "p1" (8/10)]).length = 2 := by
  exact ⟨rfl, by decide, rfl⟩

/-- C8 amended: the candidate set after the supplier stage is exactly the
retrieval results mapped to candidate records in order, one per result:
the ids are the payload product_ids (falling back to the point id) with
duplicates retained, the scores are the retrieval scores, and the length
is the number of retrieval results. -/
theorem C8_amended_candidates_are_mapped (pts : List QPoint) :
    (buildCandidates pts).length = pts.length ∧
    (buildCandidates pts).map (fun c => c.product_id) =
      pts.map (fun p => p.payload_product_id.getD p.qid) ∧
    (buildCandidates pts).map (fun c => c.semantic_score) =
      pts.map (fun p => p.score) := by
  refine ⟨List.length_map pts candOfPoint, ?_, ?_⟩
  · simp [buildCandidates, candOfPoint]
  · simp [buildCandidates, candOfPoint]

/-! ## The personalization_applied object (main.py lines 593-605)

On the success path the response reports availability_filtered and
hybrid_search_applied as constant True and the remaining flags as the
truthiness of the corresponding request field, independent of whether
the fallback rule skipped the filter. -/

/-- The personalization_applied payload (main.py lines 595-603). -/
structure Personalization where
  availability_filtered : Bool
  hybrid_search_applied : Bool
  budget_filtered : Bool
  category_filtered : Bool
  brand_filtered : Bool
  material_filtered : Bool
  payment_method_matched : Bool
deriving DecidableEq, Repr

/-- The personalization_applied object of the success-path response
(main.py lines 595-603): each flag is the Python truthiness of the
corresponding request field, with availability and hybrid search
hardcoded True. -/
def personalizationApplied (req : UserSearchRequest) : Personalization :=
  { availability_filtered := true,
    hybrid_search_applied := true,
    budget_filtered := req.budgetRange.isSome,
    category_filtered :=
      match req.preferences with
      | some p => !p.categories.isEmpty
      | none => false,
    brand_filtered :=
      match req.preferences with
      | some p => !p.brands.isEmpty
      | none => false,
    material_filtered :=
      match req.preferences with
      | some p => !p.materials.isEmpty
      | none => false,
    payment_method_matched := !(req.preferredPaymentMethod == "") }

/-- The concrete request of the C6 counterexample: a zero-width budget
range is requested, no preferences, no payment method. -/
def reqZeroBudget : UserSearchRequest :=
  { query := "q", userId := "u",
    budgetRange := some { bmin := some 0, bmax := some 0 },
    preferences := none, preferredPaymentMethod := "" }

/-- C6 counterexample: with budget range min 0 max 0 and a single
candidate priced 5, the budget predicate matches nothing, so the
fallback rule skips the budget filter (the working set is unchanged and
the filter had no effect), yet the response reports budget_filtered as
True; the flag reports that the filter was requested, not that it was
effective. -/
theorem C6_counterexample_flag_despite_skip :
    ([mkCand "a" 1 "A" 5 none].filter
      (candInBudget { bmin := some 0, bmax := some 0 })) = [] ∧
    budgetStage reqZeroBudget [mkCand "a" 1 "A" 5 none] = [mkCand "a" 1 "A" 5 none] ∧
    (personalizationApplied reqZeroBudget).budget_filtered = true := by
  refine ⟨by decide, ?_, rfl⟩
  rw [budgetStage_eq]
  decide

/-- C6 amended: personalization_applied reports whether each filter was
requested in the query context, not whether it was effective:
availability_filtered and hybrid_search_applied are constantly true on
the success path, and whenever a requested budget range eliminates every
candidate the stage is skipped by the fallback rule while
budget_filtered still reports true. -/
theorem C6_amended_flags_report_requested (req : UserSearchRequest)
    (cands : List Cand) (b : BudgetRange) (hb : req.budgetRange = some b)
    (hskip : cands.filter (candInBudget b) = []) :
    budgetStage req cands = cands ∧
    (personalizationApplied req).budget_filtered = true ∧
    (personalizationApplied req).availability_filtered = true ∧
    (personalizationApplied req).hybrid_search_applied = true ∧
    ((personalizationApplied req).payment_method_matched =
      !(req.preferredPaymentMethod == "")) := by
  refine ⟨?_, ?_, rfl, rfl, rfl⟩
  · rw [budgetStage_eq, hb]
    show (if (cands.filter (candInBudget b)).isEmpty then cands
      else cands.filter (candInBudget b)) = cands
    rw [hskip]
    rfl
  · simp [personalizationApplied, hb]

/-- C6 witness: the amended theorem at the concrete request and candidate
of the counterexample, hypotheses discharged. -/
theorem C6_amended_flags_report_requested_witness :
    budgetStage reqZeroBudget [mkCand "a" 1 "A" 5 none] = [mkCand "a" 1 "A" 5 none] ∧
    (personalizationApplied reqZeroBudget).budget_filtered = true ∧
    (personalizationApplied reqZeroBudget).availability_filtered = true ∧
    (personalizationApplied reqZeroBudget).hybrid_search_applied = true ∧
    ((personalizationApplied reqZeroBudget).payment_method_matched =
      !(reqZeroBudget.preferredPaymentMethod == "")) := by
  exact C6_amended_flags_report_requested reqZeroBudget [mkCand "a" 1 "A" 5 none]
    { bmin := some 0, bmax := some 0 } rfl (by decide)

end DeepMinds
